import Mathlib

/-!
Formal model of the MCTS game-playing agent (COMP30024 Project Part B).

The definitions below are a shallow embedding of `src/agent_mcts/mcts.py`
and `src/agent_random/movements.py`.  Stateful Python methods become pure
functions over explicit state: the backpropagation walk becomes a function
on the list of ancestors from the originating node up to the root, the
search loops become fuel-indexed recursions over abstract step oracles
(the tree policy and the wall clock are inputs, since they involve
randomness and real time), and Python `exit()` / raised exceptions become
explicit result constructors.  Machine floats are modelled by exact
rationals / reals; Python `round` is round-half-to-even.
-/

set_option maxHeartbeats 1000000

namespace MctsModel





/-- Player colour (referee.game.player.PlayerColor). -/
inductive PColor where
  | red
  | blue
  deriving DecidableEq, Repr

/-- PlayerColor.opponent. -/
def PColor.opponent : PColor → PColor
  | .red => .blue
  | .blue => .red

/-- The fields of MCTSNode read and written by `backpropagate`
(mcts.py lines 67-76 and 167-178): the node's own colour (`self.color`,
fixed at construction to the board's turn colour), `self.num_visits`,
`self.results[1]` (the win counter, a `defaultdict(int)` entry) and
`self.danger`.  Counters are modelled as integers, as in Python. -/
structure NodeStats where
  color : PColor
  numVisits : ℤ
  wins : ℤ
  danger : Bool
  deriving DecidableEq, Repr

/-- A fresh node's statistics (MCTSNode.__init__, mcts.py lines 67-74):
`num_visits = 0`, `results[1] = 0`, `danger = False`. -/
def initStats (c : PColor) : NodeStats :=
  { color := c, numVisits := 0, wins := 0, danger := false }

/-- The update one call of `backpropagate` performs on a single node
(mcts.py lines 171-173): `num_visits += 1`, and `results[1] += 1`
exactly when the supplied result equals this node's own colour
(`result == self.color`; a `None` result matches no colour). -/
def bpUpdate (result : Option PColor) (n : NodeStats) : NodeStats :=
  { n with
    numVisits := n.numVisits + 1
    wins := if result = some n.color then n.wins + 1 else n.wins }

/-- The recursive ascent of MCTSNode.backpropagate (mcts.py lines
176-178) over the strict ancestors of the originating node: before each
parent recurses, its `danger` flag has been overwritten with its child's
(`self.parent.danger = self.danger`), and the flag it passes further up
is that same copied value, since `backpropagate` never modifies
`self.danger` itself. -/
def bpGo (result : Option PColor) (childDanger : Bool) : List NodeStats → List NodeStats
  | [] => []
  | p :: rest =>
    let p2 := bpUpdate result { p with danger := childDanger }
    p2 :: bpGo result p2.danger rest

/-- MCTSNode.backpropagate (mcts.py lines 167-178) on the chain of
ancestors: the list holds the originating node first and the root last.
The walk stops at the node with no parent (the end of the list). -/
def backpropagate (result : Option PColor) : List NodeStats → List NodeStats
  | [] => []
  | n :: rest =>
    let n2 := bpUpdate result n
    n2 :: bpGo result n2.danger rest

/-- All statistics states a single node can reach across a run of the
search: it starts as `initStats` (construction), and is then modified
only by backpropagation increments (`bpUpdate`) and by writes to the
`danger` flag (`new_rollout` sets it to `True`; `backpropagate` copies a
child's flag over it). -/
inductive StatsReachable : NodeStats → Prop where
  | init (c : PColor) : StatsReachable (initStats c)
  | backprop (r : Option PColor) (s : NodeStats) :
      StatsReachable s → StatsReachable (bpUpdate r s)
  | setDanger (b : Bool) (s : NodeStats) :
      StatsReachable s → StatsReachable { s with danger := b }

/-- mcts.py line 18: `CLOSE_TO_END = 100`. -/
def CLOSE_TO_END : ℕ := 100

/-- Modelled from the spec: `MAX_TURNS` is imported from
`referee.game.constants`, which is not among the sources; the spec's
§4.4 uses it as the fixed total turn budget of the game normalizing the
endgame material term.  The game is played to a 150-turn cap (the
close-to-end cutoff 100 of mcts.py lies below it). -/
def MAX_TURNS : ℕ := 150

/-- Python's built-in `round` on an exact value: round half to even. -/
def pyRound (q : ℚ) : ℤ :=
  if q - (⌊q⌋ : ℚ) < 1 / 2 then ⌊q⌋
  else if 1 / 2 < q - (⌊q⌋ : ℚ) then ⌊q⌋ + 1
  else if ⌊q⌋ % 2 = 0 then ⌊q⌋ else ⌊q⌋ + 1

/-- The per-node data read by `greedy_judge` and `new_rollout`
(mcts.py lines 139-165 and 266-284): the node's colour (= its board's
turn colour), `len(self.my_actions)`, `self.board.turn_count`,
`self.board._red_state` / `_blue_state` (the two players' aggregate
scores; the backing BitBoard is not among the sources, the spec's §6
calls this `aggregate_score(color)`), `self.board.game_over`,
`self.board.winner_color`, and the mutable `danger` and `winning_color`
fields. -/
structure GNode where
  color : PColor
  myActionsLen : ℕ
  turnCount : ℕ
  redState : ℤ
  blueState : ℤ
  terminal : Bool
  winnerColor : Option PColor
  danger : Bool
  winningColor : Option PColor
  deriving DecidableEq, Repr

/-- MCTSNode.greedy_judge (mcts.py lines 266-284), written line by line
from the source: a `None` perspective defaults to the node's own colour;
the base term adds the mover's move count when the perspective is the
mover's colour and subtracts it otherwise; past the close-to-end cutoff
the RED branch adds `round((red - blue) + mobility/MAX_TURNS - turns)`
while the BLUE branch adds `round((blue - red + mobility)/MAX_TURNS -
turns)` (the parenthesisation differs between the two branches in the
source). -/
def greedy_judge (n : GNode) (agentColor : Option PColor) : ℤ :=
  let c := agentColor.getD n.color
  let base : ℤ := if n.color = c then (n.myActionsLen : ℤ) else -(n.myActionsLen : ℤ)
  if CLOSE_TO_END < n.turnCount then
    base +
      (if c = PColor.red then
        pyRound (((n.redState : ℚ) - (n.blueState : ℚ)) +
          (n.myActionsLen : ℚ) / (MAX_TURNS : ℚ) - (n.turnCount : ℚ))
      else
        pyRound (((n.blueState : ℚ) - (n.redState : ℚ) + (n.myActionsLen : ℚ)) /
          (MAX_TURNS : ℚ) - (n.turnCount : ℚ)))
  else base

/-- mcts.py lines 144-146: `if max_steps / 2 == 1: max_steps += 1`.
Python `/` is true division, so the test holds exactly when
`max_steps == 2`. -/
def adjust_max_steps (maxSteps : ℕ) : ℕ :=
  if (maxSteps : ℚ) / 2 = 1 then maxSteps + 1 else maxSteps

/-- The while-loop of MCTSNode.new_rollout (mcts.py lines 147-156):
starting from a node, repeatedly apply the tree policy (`pol`, an
abstract step oracle, since `tree_policy` draws on randomness) while the
current node is non-terminal and steps remain; a `None` from the policy
aborts the whole rollout with `None`. -/
def rolloutWalk (pol : GNode → Option GNode) : GNode → ℕ → Option GNode
  | n, 0 => some n
  | n, fuel + 1 =>
    if n.terminal then some n
    else
      match pol n with
      | none => none
      | some n2 => rolloutWalk pol n2 fuel

/-- The post-processing of MCTSNode.new_rollout (mcts.py lines 157-165):
a terminal end node gets `danger = True` and `winning_color` = the
actual game winner; otherwise `winning_color` is the rollout root's
colour exactly when the end node's `greedy_judge`, from the root's
colour perspective, strictly exceeds the root's own, else the opponent's
colour. -/
def rolloutFinish (root : GNode) (endN : GNode) : GNode :=
  if endN.terminal then { endN with danger := true, winningColor := endN.winnerColor }
  else if greedy_judge endN (some root.color) > greedy_judge root (some root.color) then
    { endN with winningColor := some root.color }
  else
    { endN with winningColor := some root.color.opponent }

/-- MCTSNode.new_rollout (mcts.py lines 139-165): the budget first goes
through the `max_steps / 2 == 1` adjustment, then the walk runs and the
end node is post-processed. -/
def new_rollout (pol : GNode → Option GNode) (root : GNode) (maxSteps : ℕ) : Option GNode :=
  (rolloutWalk pol root (adjust_max_steps maxSteps)).map (rolloutFinish root)

/-- Following the claim's words (spec §4.4): the bounded rollout as the
claim states it, stopping at the first of a terminal node or `maxSteps`
applications of the tree policy — the budget is used as given, with no
adjustment.  Kept beside `new_rollout` to compare the source against the
claim. -/
def rolloutSpec (pol : GNode → Option GNode) (root : GNode) (maxSteps : ℕ) : Option GNode :=
  (rolloutWalk pol root maxSteps).map (rolloutFinish root)

/-- `k`-fold application of the tree-policy oracle. -/
def polIter (pol : GNode → Option GNode) : ℕ → GNode → Option GNode
  | 0, n => some n
  | k + 1, n =>
    match pol n with
    | none => none
    | some n2 => polIter pol k n2

/-- The statistics `best_child` reads off one child (mcts.py lines
186-196): `child.results[1]` (wins), `child.num_visits`, and the move
that led to it (`parent_action`, an opaque identifier here). -/
structure ChildStat where
  wins : ℕ
  visits : ℕ
  move : ℕ
  deriving DecidableEq, Repr

/-- The UCB1 score best_child computes for one child (mcts.py lines
187-196): when `child.num_visits <= 0 or self.num_visits <= 0` the score
is the raw win count with no exploration term; otherwise
`results[1]/num_visits + c_param * (log(N)/num_visits) ** 0.5`.  Floats
are modelled by exact reals, so the definition is noncomputable (log and
sqrt); every concrete fact proved about it below stays on the
zero-visit branch or is derived from the order structure. -/
noncomputable def ucb1Score (c : ℝ) (parentVisits : ℕ) (ch : ChildStat) : ℝ :=
  if ch.visits ≤ 0 ∨ parentVisits ≤ 0 then (ch.wins : ℝ)
  else (ch.wins : ℝ) / (ch.visits : ℝ) +
    c * Real.sqrt (Real.log (parentVisits : ℝ) / (ch.visits : ℝ))

/-- The selection loop of best_child (mcts.py lines 184-199), generic in
the score: the accumulator holds `(best_score, best_child)`, starting as
`None` (standing for `best_score = -inf, best_child = None`: the first
child's finite score always beats `-inf`); a later child replaces it
only on a strictly greater score (`score > best_score`), so the first
encountered maximum wins ties. -/
def bcLoop {α β : Type} [LinearOrder β] (score : α → β) :
    List α → Option (β × α) → Option α
  | [], none => none
  | [], some st => some st.2
  | x :: xs, none => bcLoop score xs (some (score x, x))
  | x :: xs, some st =>
    if st.1 < score x then bcLoop score xs (some (score x, x))
    else bcLoop score xs (some st)

/-- Outcome of a Python call that either returns or calls `exit()`. -/
inductive PyResult (α : Type) where
  | ok (a : α)
  | exited
  deriving DecidableEq, Repr

/-- MCTSNode.best_child (mcts.py lines 180-204): run the selection loop
over the children in encounter order; when no best child was found
(i.e. the children mapping is empty) the source prints an error and
calls `exit()`, terminating the whole process. -/
noncomputable def best_child (c : ℝ) (parentVisits : ℕ) (children : List ChildStat) :
    PyResult ChildStat :=
  match bcLoop (ucb1Score c parentVisits) children none with
  | none => PyResult.exited
  | some ch => PyResult.ok ch

/-- What one iteration of the best_action search loop does after the
time check (mcts.py lines 232-244), abstracted as an oracle since it
involves the randomized tree policy: the policy can fail (`return
None`), the selected node can be an immediate terminal win for the root
(`return v.parent_action`), or the iteration completes a simulation
(rollout plus backpropagation) and increments `sim_count`. -/
inductive IterOutcome where
  | policyFail
  | immediateWin (a : ℕ)
  | simDone
  deriving DecidableEq, Repr

/-- How the best_action search loop ends. -/
inductive LoopRes where
  | earlyNone
  | earlyWin (a : ℕ)
  | finished (simCount : ℕ)
  deriving DecidableEq, Repr

/-- Outcome of a Python call that returns, calls `exit()`, or raises
ZeroDivisionError. -/
inductive PyExec (α : Type) where
  | ok (a : α)
  | exited
  | zeroDivisionError
  deriving DecidableEq, Repr

/-- mcts.py line 76: `self.estimated_time: float = 0` at construction. -/
def initEstimatedTime : ℚ := 0

/-- The `for _ in range(sim_no)` loop of best_action (mcts.py lines
229-244): `elapsed i` is the wall-clock reading `timer() - start_time`
seen at iteration `i` (the clock is an input); the loop breaks when it
exceeds `estimated_time`, and otherwise runs one iteration, returning
early on a policy failure or an immediate win. -/
def bestActionLoop (est : ℚ) (elapsed : ℕ → ℚ) (iter : ℕ → IterOutcome) :
    ℕ → ℕ → ℕ → LoopRes
  | 0, _, simCount => .finished simCount
  | remaining + 1, i, simCount =>
    if est < elapsed i then .finished simCount
    else
      match iter i with
      | .policyFail => .earlyNone
      | .immediateWin a => .earlyWin a
      | .simDone => bestActionLoop est elapsed iter remaining (i + 1) (simCount + 1)

/-- MCTSNode.best_action (mcts.py lines 223-258): run the search loop;
when it finishes, the source divides by `sim_count` with no guard
(line 248, `(timer() - start_time) / sim_count`), so a run with zero
completed simulations raises ZeroDivisionError; otherwise the final
move decision calls `best_child(c_param=0.0)` and returns its
`parent_action` (the `return None` fallback of lines 256-258 is
unreachable, because `best_child` exits the process instead of ever
returning a falsy value). -/
noncomputable def best_action (est : ℚ) (elapsed : ℕ → ℚ) (iter : ℕ → IterOutcome)
    (simNo : ℕ) (parentVisits : ℕ) (children : List ChildStat) : PyExec (Option ℕ) :=
  match bestActionLoop est elapsed iter simNo 0 0 with
  | .earlyNone => .ok none
  | .earlyWin a => .ok (some a)
  | .finished simCount =>
    if simCount = 0 then .zeroDivisionError
    else
      match bcLoop (ucb1Score 0 parentVisits) children none with
      | none => .exited
      | some ch => .ok (some ch.move)

/-- A node of the search tree as the Lifecycle pass sees it: whether
its owned fields have been deleted (`released`; mcts.py lines 324-333
delete the children mapping, board, parent pointer, parent action, move
lists, colour and statistics, removing every outgoing reference of the
node), an abstract tag standing for all that per-node data, and the
children in the encounter order of the `__action_to_children`
mapping. -/
inductive MTree : Type where
  | node (released : Bool) (tag : ℕ) (children : List MTree)

def MTree.isReleased : MTree → Bool
  | .node r _ _ => r

def MTree.childCount : MTree → ℕ
  | .node _ _ cs => cs.length

mutual
/-- The parameterless branch of MCTSNode.chop_nodes_except (mcts.py
lines 321-333): recursively discard every child first, then delete this
node's own fields. -/
def chopAll : MTree → MTree
  | .node _ g cs => .node true g (chopAllL cs)

def chopAllL : List MTree → List MTree
  | [] => []
  | t :: ts => chopAll t :: chopAllL ts
end

/-- The children loop of MCTSNode.chop_nodes_except when a node to keep
is given (mcts.py lines 312-320): the designated child (identified here
by its position `k` in the children mapping's encounter order) is
skipped (`continue`), every other child subtree is deep-released; no
entry is removed from the mapping. -/
def chopExceptL (k : ℕ) : ℕ → List MTree → List MTree
  | _, [] => []
  | i, t :: ts => (if i = k then t else chopAll t) :: chopExceptL k (i + 1) ts

/-- MCTSNode.chop_nodes_except called on a root with its `k`-th child
designated as the next root (mcts.py lines 306-320): the root's own
fields stay untouched. -/
def chop_nodes_except : MTree → ℕ → MTree
  | .node r g cs, k => .node r g (chopExceptL k 0 cs)

/-- Address of a node: the list of child indices leading to it from the
tree's root. -/
def lookupA : MTree → List ℕ → Option MTree
  | t, [] => some t
  | .node _ _ cs, i :: rest =>
    match cs[i]? with
    | none => none
    | some c => lookupA c rest

/-- One step of reference traversal in a chopped tree: an unreleased
node still references each entry of its children mapping (the mapping
was not cleared) and its parent (`self.parent`); a released node
references nothing, since all its fields were deleted. -/
inductive EdgeA (t0 : MTree) : List ℕ → List ℕ → Prop where
  | down (a : List ℕ) (j : ℕ) (t : MTree) :
      lookupA t0 a = some t → t.isReleased = false → j < t.childCount →
      EdgeA t0 a (a ++ [j])
  | up (a : List ℕ) (j : ℕ) (t : MTree) :
      lookupA t0 (a ++ [j]) = some t → t.isReleased = false →
      EdgeA t0 (a ++ [j]) a

/-- Reachability by following references from a starting node. -/
def ReachableA (t0 : MTree) (a b : List ℕ) : Prop :=
  Relation.ReflTransGen (EdgeA t0) a b

/-- agent_random/tetronimos.py line 5: `BOARD_N = 11`. -/
def BOARD_N : ℕ := 11

/-- Board coordinate: referee.game.coord.Coord, a row/column pair on the
11x11 board whose arithmetic wraps modulo the board size (the referee
module is not among the sources). -/
abbrev Coord := Fin 11 × Fin 11

/-- Coordinate addition (referee `Coord + Coord`): componentwise,
wrapping modulo 11. -/
def addCoord (a b : Coord) : Coord := (a.1 + b.1, a.2 + b.2)

/-- referee PlaceAction: the cells of one placed tetromino. -/
structure PlaceAction where
  coords : List Coord
  deriving DecidableEq, Repr

/-- agent_random/movements.py lines 48-55, `is_valid`: a piece may be
placed iff every one of its cells is unoccupied on the given state
(`state[coord].player is not None` fails for no cell).  The state maps
each coordinate to the colour occupying it, if any (the referee board
dict holds a CellState for every coordinate). -/
def is_valid (state : Coord → Option PColor) (piece : PlaceAction) : Bool :=
  piece.coords.all (fun c => (state c).isNone)

/-- Modelled from the spec: the fixed tetromino shape table built
at module load (`make_tetronimos(Coord(0, 0))`, movements.py line 7) from
`referee.game.pieces`, which is not among the sources.  Each entry is a
fixed-shape four-cell piece anchored at the origin (spec §1: "placing a
fixed-shape multi-cell piece"; the claim speaks of "the four cells" of a
placement).  Two representative shapes stand in for the full table: the
horizontal I piece and the O (square) piece. -/
def tetronimos : List PlaceAction :=
  [⟨[((0 : Fin 11), (0 : Fin 11)), ((0 : Fin 11), (1 : Fin 11)),
     ((0 : Fin 11), (2 : Fin 11)), ((0 : Fin 11), (3 : Fin 11))]⟩,
   ⟨[((0 : Fin 11), (0 : Fin 11)), ((0 : Fin 11), (1 : Fin 11)),
     ((1 : Fin 11), (0 : Fin 11)), ((1 : Fin 11), (1 : Fin 11))]⟩]

/-- movements.py line 72: translate a tetromino's cells to an anchor,
`PlaceAction(*[coord + Coord(x, y) for x, y in list(tetronimo.coords)])`. -/
def translatePA (anchor : Coord) (t : PlaceAction) : PlaceAction :=
  ⟨t.coords.map (fun xy => addCoord anchor xy)⟩

/-- agent_random/movements.py lines 67-75, `get_valid_pieces`: keep the
tetronimos whose cells pass `is_valid` as written in the source — the
filter tests the untranslated `tetronimo`, anchored at the origin — and
return the placements translated to the given coordinate. -/
def get_valid_pieces (state : Coord → Option PColor) (coord : Coord) : List PlaceAction :=
  (tetronimos.filter (fun t => is_valid state t)).map (translatePA coord)

/-- agent_random/movements.py lines 10-15, `valid_moves`: the identity
comprehension over `get_valid_pieces`. -/
def valid_moves (state : Coord → Option PColor) (coord : Coord) : List PlaceAction :=
  get_valid_pieces state coord

theorem bpUpdate_numVisits (r : Option PColor) (n : NodeStats) :
    (bpUpdate r n).numVisits = n.numVisits + 1 := rfl

theorem bpUpdate_wins (r : Option PColor) (n : NodeStats) :
    (bpUpdate r n).wins = n.wins + (if r = some n.color then 1 else 0) := by
  by_cases h : r = some n.color <;> simp [bpUpdate, h]

theorem bpUpdate_danger (r : Option PColor) (n : NodeStats) :
    (bpUpdate r n).danger = n.danger := rfl

theorem bpUpdate_color (r : Option PColor) (n : NodeStats) :
    (bpUpdate r n).color = n.color := rfl

theorem bpUpdate_setDanger (r : Option PColor) (n : NodeStats) (b : Bool) :
    bpUpdate r { n with danger := b } = { bpUpdate r n with danger := b } := rfl

theorem setDanger_numVisits (b : Bool) (t : NodeStats) :
    ({ t with danger := b } : NodeStats).numVisits = t.numVisits := rfl

theorem setDanger_wins (b : Bool) (t : NodeStats) :
    ({ t with danger := b } : NodeStats).wins = t.wins := rfl

/-- Closed form of the ascent: every strict ancestor is updated by
`bpUpdate` and has its `danger` flag overwritten with the originating
node's flag (the copied flag is never recomputed on the way up). -/
theorem bpGo_closed (r : Option PColor) (b : Bool) :
    ∀ rest : List NodeStats,
      bpGo r b rest = rest.map (fun p => { bpUpdate r p with danger := b }) := by
  intro rest
  induction rest with
  | nil => rfl
  | cons p rest2 ih =>
    show bpUpdate r { p with danger := b } ::
        bpGo r (bpUpdate r { p with danger := b }).danger rest2 = _
    rw [bpUpdate_setDanger]
    show { bpUpdate r p with danger := b } :: bpGo r b rest2 = _
    rw [ih, List.map_cons]

/-- Closed form of the full backpropagation walk. -/
theorem backpropagate_closed (r : Option PColor) (n : NodeStats) (rest : List NodeStats) :
    backpropagate r (n :: rest) =
      bpUpdate r n :: rest.map (fun p => { bpUpdate r p with danger := n.danger }) := by
  show bpUpdate r n :: bpGo r (bpUpdate r n).danger rest = _
  rw [bpUpdate_danger, bpGo_closed]

/-- C3: one call of `backpropagate result` on a node increments
`num_visits` by exactly 1 on every node of the path from that node to
the root inclusive (the input list, head = originating node, last =
root) and on no node outside the path (positions beyond the path are
untouched); it increments the win counter `results[1]` by 1 exactly when
the result equals that node's own colour (each ancestor compares against
itself, not the original root's colour); each step copies the child's
`danger` flag onto the parent, overwriting the parent's previous value
(so every ancestor ends with the originating node's flag, which is also
its direct child's flag at the moment of the copy); node colours are
untouched, and the walk terminates exactly at the parentless root (the
recursion consumes the list and no more). -/
theorem c3_backpropagate_path (r : Option PColor) (l : List NodeStats) (d : NodeStats)
    (hne : l ≠ []) :
    (backpropagate r l).length = l.length ∧
    (∀ i, i < l.length →
      ((backpropagate r l).getD i d).numVisits = (l.getD i d).numVisits + 1 ∧
      ((backpropagate r l).getD i d).wins =
        (l.getD i d).wins + (if r = some (l.getD i d).color then 1 else 0) ∧
      ((backpropagate r l).getD i d).color = (l.getD i d).color ∧
      ((backpropagate r l).getD i d).danger = (l.getD 0 d).danger) ∧
    (∀ i, l.length ≤ i → (backpropagate r l).getD i d = d) := by
  obtain ⟨n, rest, rfl⟩ : ∃ n rest, l = n :: rest := by
    cases l with
    | nil => exact absurd rfl hne
    | cons n rest => exact ⟨n, rest, rfl⟩
  rw [backpropagate_closed]
  refine ⟨by simp, ?_, ?_⟩
  · intro i hi
    cases i with
    | zero =>
      exact ⟨bpUpdate_numVisits r n, bpUpdate_wins r n, bpUpdate_color r n,
        bpUpdate_danger r n⟩
    | succ j =>
      have hj : j < rest.length := by simpa using hi
      have hmap : ((rest.map (fun p => { bpUpdate r p with danger := n.danger })).getD j d)
          = { bpUpdate r (rest.getD j d) with danger := n.danger } := by
        simp only [List.getD_eq_getElem?_getD, List.getElem?_map,
          List.getElem?_eq_getElem hj, Option.map_some', Option.getD_some]
      simp only [List.getD_cons_succ, List.getD_cons_zero, hmap]
      refine ⟨?_, ?_, ?_, ?_⟩
      · exact bpUpdate_numVisits r (rest.getD j d)
      · exact bpUpdate_wins r (rest.getD j d)
      · exact bpUpdate_color r (rest.getD j d)
      · trivial
  · intro i hi
    apply List.getD_eq_default
    simpa using hi

/-- Concrete run of C3: a two-node path (node, then root) with a red
result; the node is red (win counted), the root blue (not counted), and
the node's raised `danger` flag overwrites the root's clear one. -/
theorem c3_backpropagate_path_witness :
    ((backpropagate (some .red)
        [{ color := .red, numVisits := 3, wins := 2, danger := true },
         { color := .blue, numVisits := 7, wins := 4, danger := false }]).getD 1
        (initStats .red)).numVisits = 8 ∧
    ((backpropagate (some .red)
        [{ color := .red, numVisits := 3, wins := 2, danger := true },
         { color := .blue, numVisits := 7, wins := 4, danger := false }]).getD 1
        (initStats .red)).wins = 4 ∧
    ((backpropagate (some .red)
        [{ color := .red, numVisits := 3, wins := 2, danger := true },
         { color := .blue, numVisits := 7, wins := 4, danger := false }]).getD 1
        (initStats .red)).danger = true := by
  have h := c3_backpropagate_path (some .red)
    [{ color := .red, numVisits := 3, wins := 2, danger := true },
     { color := .blue, numVisits := 7, wins := 4, danger := false }]
    (initStats .red) (by simp)
  obtain ⟨-, h2, -⟩ := h
  have h1 := h2 1 (by simp)
  refine ⟨?_, ?_, ?_⟩
  · rw [h1.1]; rfl
  · rw [h1.2.1]; rfl
  · rw [h1.2.2.2]; rfl

/-- C4: every statistics state a node can reach satisfies
`0 ≤ win_count ≤ visit_count`; both counters are 0 at construction, and
each operation leaves them unchanged or increases them (`bpUpdate`
raises `num_visits` by one and `results[1]` by zero or one; danger
writes touch neither counter). -/
theorem c4_counters_invariant (s : NodeStats) (h : StatsReachable s) :
    (0 ≤ s.wins ∧ s.wins ≤ s.numVisits) ∧
    (∀ c, (initStats c).wins = 0 ∧ (initStats c).numVisits = 0) ∧
    (∀ r (t : NodeStats),
      t.numVisits ≤ (bpUpdate r t).numVisits ∧ t.wins ≤ (bpUpdate r t).wins) ∧
    (∀ (b : Bool) (t : NodeStats),
      ({ t with danger := b } : NodeStats).numVisits = t.numVisits ∧
      ({ t with danger := b } : NodeStats).wins = t.wins) := by
  refine ⟨?_, fun c => ⟨rfl, rfl⟩, ?_, fun b t => ⟨rfl, rfl⟩⟩
  · induction h with
    | init c => exact ⟨le_refl 0, le_refl 0⟩
    | backprop r s hs ih =>
      rw [bpUpdate_wins, bpUpdate_numVisits]
      constructor
      · split <;> omega
      · split <;> omega
    | setDanger b s hs ih => exact ih
  · intro r t
    rw [bpUpdate_wins, bpUpdate_numVisits]
    constructor
    · omega
    · split <;> omega

/-- Concrete run of C4: the invariant holds of a node that was
constructed and then received one matching backpropagation result. -/
theorem c4_counters_invariant_witness :
    (0 ≤ (bpUpdate (some .red) (initStats .red)).wins ∧
      (bpUpdate (some .red) (initStats .red)).wins ≤
        (bpUpdate (some .red) (initStats .red)).numVisits) ∧
    (∀ c, (initStats c).wins = 0 ∧ (initStats c).numVisits = 0) ∧
    (∀ r (t : NodeStats),
      t.numVisits ≤ (bpUpdate r t).numVisits ∧ t.wins ≤ (bpUpdate r t).wins) ∧
    (∀ (b : Bool) (t : NodeStats),
      ({ t with danger := b } : NodeStats).numVisits = t.numVisits ∧
      ({ t with danger := b } : NodeStats).wins = t.wins) :=
  c4_counters_invariant (bpUpdate (some .red) (initStats .red))
    (StatsReachable.backprop (some .red) (initStats .red) (StatsReachable.init .red))

theorem adjust_max_steps_eq (ms : ℕ) :
    adjust_max_steps ms = if ms = 2 then ms + 1 else ms := by
  unfold adjust_max_steps
  by_cases h : ms = 2
  · subst h; norm_num
  · rw [if_neg h, if_neg]
    intro hq
    apply h
    have h2 : (ms : ℚ) = 2 := by
      field_simp at hq
      exact_mod_cast hq
    exact_mod_cast h2

theorem pyRound_eq_low (q : ℚ) (f : ℤ) (h1 : (f : ℚ) ≤ q) (h2 : q < (f : ℚ) + 1)
    (hr : q - (f : ℚ) < 1 / 2) : pyRound q = f := by
  have hf : ⌊q⌋ = f := Int.floor_eq_iff.mpr ⟨h1, by linarith⟩
  unfold pyRound
  rw [hf, if_pos hr]

theorem polIter_succ (pol : GNode → Option GNode) (k : ℕ) (n n2 : GNode)
    (h : pol n = some n2) : polIter pol (k + 1) n = polIter pol k n2 := by
  show (match pol n with | none => none | some n2 => polIter pol k n2) = _
  rw [h]

theorem rolloutWalk_of_terminal_iter (pol : GNode → Option GNode) :
    ∀ (k fuel : ℕ) (n m : GNode), k ≤ fuel → polIter pol k n = some m →
      m.terminal = true →
      (∀ j, j < k → ∀ m2, polIter pol j n = some m2 → m2.terminal = false) →
      rolloutWalk pol n fuel = some m := by
  intro k
  induction k with
  | zero =>
    intro fuel n m _ hiter hterm _
    have hm : m = n := by simpa [polIter] using hiter.symm
    subst hm
    cases fuel with
    | zero => rfl
    | succ f => simp [rolloutWalk, hterm]
  | succ k ih =>
    intro fuel n m hk hiter hterm hpre
    obtain ⟨f, rfl⟩ : ∃ f, fuel = f + 1 := ⟨fuel - 1, by omega⟩
    have hn : n.terminal = false := hpre 0 (by omega) n (by rfl)
    obtain ⟨n2, hpol⟩ : ∃ n2, pol n = some n2 := by
      cases hp : pol n with
      | none => rw [polIter, hp] at hiter; exact absurd hiter (by simp)
      | some n2 => exact ⟨n2, rfl⟩
    rw [polIter_succ pol k n n2 hpol] at hiter
    have hwalk : rolloutWalk pol n (f + 1) = rolloutWalk pol n2 f := by
      simp [rolloutWalk, hn, hpol]
    rw [hwalk]
    refine ih f n2 m (by omega) hiter hterm ?_
    intro j hj m2 hm2
    refine hpre (j + 1) (by omega) m2 ?_
    rw [polIter_succ pol j n n2 hpol]
    exact hm2

theorem rolloutWalk_of_exhausted (pol : GNode → Option GNode) :
    ∀ (fuel : ℕ) (n m : GNode), polIter pol fuel n = some m →
      (∀ j, j ≤ fuel → ∀ m2, polIter pol j n = some m2 → m2.terminal = false) →
      rolloutWalk pol n fuel = some m := by
  intro fuel
  induction fuel with
  | zero =>
    intro n m hiter _
    have hm : m = n := by simpa [polIter] using hiter.symm
    subst hm
    rfl
  | succ f ih =>
    intro n m hiter hall
    have hn : n.terminal = false := hall 0 (by omega) n (by rfl)
    obtain ⟨n2, hpol⟩ : ∃ n2, pol n = some n2 := by
      cases hp : pol n with
      | none => rw [polIter, hp] at hiter; exact absurd hiter (by simp)
      | some n2 => exact ⟨n2, rfl⟩
    rw [polIter_succ pol f n n2 hpol] at hiter
    have hwalk : rolloutWalk pol n (f + 1) = rolloutWalk pol n2 f := by
      simp [rolloutWalk, hn, hpol]
    rw [hwalk]
    refine ih n2 m hiter ?_
    intro j hj m2 hm2
    refine hall (j + 1) (by omega) m2 ?_
    rw [polIter_succ pol j n n2 hpol]
    exact hm2

/-- C6 (amended): `greedy_judge` defaults a missing perspective to the
node's own colour; its base term is the mover's legal-move count, added
when the perspective colour is the mover's and subtracted otherwise (no
opponent move count enters); once the turn count exceeds the
close-to-end threshold it adds, for a RED perspective, the claimed
correction `round((red - blue) + mobility/MAX_TURNS - turn_count)`, but
for a BLUE perspective the differently-parenthesised
`round((blue - red + mobility)/MAX_TURNS - turn_count)`; the two
perspectives are therefore not the same function of (scores, mobility,
turn count) with the roles of own and opponent swapped
(`c6_perspective_asymmetry`). -/
theorem c6_greedy_judge_formula (n : GNode) :
    (greedy_judge n none = greedy_judge n (some n.color)) ∧
    (∀ c, n.turnCount ≤ CLOSE_TO_END →
      greedy_judge n (some c) =
        (if n.color = c then (n.myActionsLen : ℤ) else -(n.myActionsLen : ℤ))) ∧
    (CLOSE_TO_END < n.turnCount →
      greedy_judge n (some .red) =
        (if n.color = .red then (n.myActionsLen : ℤ) else -(n.myActionsLen : ℤ)) +
          pyRound (((n.redState : ℚ) - (n.blueState : ℚ)) +
            (n.myActionsLen : ℚ) / (MAX_TURNS : ℚ) - (n.turnCount : ℚ)) ∧
      greedy_judge n (some .blue) =
        (if n.color = .blue then (n.myActionsLen : ℤ) else -(n.myActionsLen : ℤ)) +
          pyRound (((n.blueState : ℚ) - (n.redState : ℚ) + (n.myActionsLen : ℚ)) /
            (MAX_TURNS : ℚ) - (n.turnCount : ℚ))) := by
  refine ⟨rfl, ?_, ?_⟩
  · intro c h
    simp [greedy_judge, Nat.not_lt.mpr h]
  · intro h
    constructor
    · simp [greedy_judge, h]
    · simp [greedy_judge, h]

/-- C6 counterexample: a BLUE-to-move position evaluated from the BLUE
perspective, against its exact mirror image (colours and the two
aggregate scores swapped) evaluated from the RED perspective.  Were the
returned value the same function of (scores, mobility, turn count) with
the roles of own and opponent swapped, the two evaluations would agree;
the source returns `round(150/150 - 101) = -100` for the former and
`round(150 - 101) = 49` for the latter. -/
theorem c6_perspective_asymmetry :
    greedy_judge
      { color := .blue, myActionsLen := 0, turnCount := 101, redState := 0, blueState := 150,
        terminal := false, winnerColor := none, danger := false, winningColor := none }
      (some .blue)
    ≠ greedy_judge
      { color := .red, myActionsLen := 0, turnCount := 101, redState := 150, blueState := 0,
        terminal := false, winnerColor := none, danger := false, winningColor := none }
      (some .red) := by
  have hb : greedy_judge
      { color := .blue, myActionsLen := 0, turnCount := 101, redState := 0, blueState := 150,
        terminal := false, winnerColor := none, danger := false, winningColor := none }
      (some .blue) =
      pyRound ((((150 : ℤ) : ℚ) - ((0 : ℤ) : ℚ) + ((0 : ℕ) : ℚ)) / ((150 : ℕ) : ℚ) -
        ((101 : ℕ) : ℚ)) := by
    simp [greedy_judge, CLOSE_TO_END, MAX_TURNS]
  have hr : greedy_judge
      { color := .red, myActionsLen := 0, turnCount := 101, redState := 150, blueState := 0,
        terminal := false, winnerColor := none, danger := false, winningColor := none }
      (some .red) =
      pyRound ((((150 : ℤ) : ℚ) - ((0 : ℤ) : ℚ)) + ((0 : ℕ) : ℚ) / ((150 : ℕ) : ℚ) -
        ((101 : ℕ) : ℚ)) := by
    simp [greedy_judge, CLOSE_TO_END, MAX_TURNS]
  rw [hb, hr]
  rw [pyRound_eq_low _ (-100) (by norm_num) (by norm_num) (by norm_num),
    pyRound_eq_low _ 49 (by norm_num) (by norm_num) (by norm_num)]
  decide

/-- C5: the source's budget adjustment `if max_steps / 2 == 1:
max_steps += 1` (true division) evaluated where the claim's rounding
rule disagrees with it: the even budget 2 is changed to the odd 3, while
the odd budgets 3 and 5 are left odd; only the default 150 and other
values pass through unchanged. -/
theorem c5_adjust_max_steps_eval :
    adjust_max_steps 2 = 3 ∧ adjust_max_steps 3 = 3 ∧ adjust_max_steps 4 = 4 ∧
      adjust_max_steps 5 = 5 ∧ adjust_max_steps 150 = 150 := by
  simp [adjust_max_steps_eq]

/-- C2 (amended): `new_rollout` equals the claim's bounded rollout run
with the adjusted budget (`adjust_max_steps`, which turns exactly the
budget 2 into 3 and leaves every other value unchanged); with that one
amendment the claim's description holds: the walk stops at the first of
a terminal node or budget exhaustion; a terminal end node gets
`winning_color` = the actual winner and `danger = True`; on budget
exhaustion the end node's `winning_color` is the rollout root's colour
exactly when its `greedy_judge` from the root's colour perspective
strictly exceeds the root's own (ties go to the opponent). -/
theorem c2_new_rollout_amended (pol : GNode → Option GNode) (root : GNode) (maxSteps : ℕ) :
    (new_rollout pol root maxSteps = rolloutSpec pol root (adjust_max_steps maxSteps)) ∧
    (∀ k m, k ≤ adjust_max_steps maxSteps → polIter pol k root = some m →
      m.terminal = true →
      (∀ j, j < k → ∀ m2, polIter pol j root = some m2 → m2.terminal = false) →
      new_rollout pol root maxSteps =
        some { m with danger := true, winningColor := m.winnerColor }) ∧
    (∀ m, polIter pol (adjust_max_steps maxSteps) root = some m →
      (∀ j, j ≤ adjust_max_steps maxSteps → ∀ m2, polIter pol j root = some m2 →
        m2.terminal = false) →
      new_rollout pol root maxSteps =
        some (if greedy_judge m (some root.color) > greedy_judge root (some root.color)
          then { m with winningColor := some root.color }
          else { m with winningColor := some root.color.opponent })) := by
  refine ⟨rfl, ?_, ?_⟩
  · intro k m hk hiter hterm hpre
    have hwalk := rolloutWalk_of_terminal_iter pol k (adjust_max_steps maxSteps) root m
      hk hiter hterm hpre
    unfold new_rollout
    rw [hwalk, Option.map_some']
    simp [rolloutFinish, hterm]
  · intro m hiter hall
    have hwalk := rolloutWalk_of_exhausted pol (adjust_max_steps maxSteps) root m hiter hall
    have hterm : m.terminal = false := hall (adjust_max_steps maxSteps) (le_refl _) m hiter
    unfold new_rollout
    rw [hwalk, Option.map_some']
    by_cases hgt : greedy_judge m (some root.color) > greedy_judge root (some root.color)
    · simp [rolloutFinish, hterm, hgt]
    · simp [rolloutFinish, hterm, hgt]

/-- C2 counterexample: with a tree-policy oracle that just advances the
turn counter of a never-terminal position, a rollout given the step
budget 2 does not behave as the claim states for the budget 2: the
source first turns the budget into 3 (`max_steps / 2 == 1` fires), so
the policy is applied three times, not two, and the reached node differs
from the claim's. -/
theorem c2_new_rollout_counterexample :
    new_rollout
      (fun n => if n.turnCount < 10 then some { n with turnCount := n.turnCount + 1 } else none)
      { color := .red, myActionsLen := 5, turnCount := 0, redState := 0, blueState := 0,
        terminal := false, winnerColor := none, danger := false, winningColor := none } 2
    ≠ rolloutSpec
      (fun n => if n.turnCount < 10 then some { n with turnCount := n.turnCount + 1 } else none)
      { color := .red, myActionsLen := 5, turnCount := 0, redState := 0, blueState := 0,
        terminal := false, winnerColor := none, danger := false, winningColor := none } 2 := by
  have ha : adjust_max_steps 2 = 3 := by simp [adjust_max_steps_eq]
  simp only [new_rollout, rolloutSpec, ha]
  decide

/-- Invariant of the best_child selection loop with a nonempty
accumulator `(s, b)`: either no later child strictly beats `s` and `b`
survives, or the result is the first child whose score strictly exceeds
`s` and weakly dominates everything after it. -/
theorem bcLoop_some_spec {α β : Type} [LinearOrder β] (score : α → β) (d : α) :
    ∀ (l : List α) (s : β) (b : α),
      ∃ res, bcLoop score l (some (s, b)) = some res ∧
        ((res = b ∧ ∀ j, j < l.length → score (l.getD j d) ≤ s) ∨
         (∃ i, i < l.length ∧ res = l.getD i d ∧ s < score (l.getD i d) ∧
           (∀ j, j < i → score (l.getD j d) < score (l.getD i d)) ∧
           (∀ j, j < l.length → score (l.getD j d) ≤ score (l.getD i d)))) := by
  intro l
  induction l with
  | nil => intro s b; exact ⟨b, rfl, Or.inl ⟨rfl, by simp⟩⟩
  | cons x xs ih =>
    intro s b
    by_cases hlt : s < score x
    · obtain ⟨res, hres, hcase⟩ := ih (score x) x
      refine ⟨res, by simp only [bcLoop, if_pos hlt]; exact hres, Or.inr ?_⟩
      rcases hcase with ⟨rfl, hall⟩ | ⟨i, hi, rfl, hgt, hpre, hall⟩
      · refine ⟨0, by simp, by simp, by simpa using hlt, by omega, ?_⟩
        intro j hj
        cases j with
        | zero => simp
        | succ j2 => simpa using hall j2 (by simpa using hj)
      · refine ⟨i + 1, by simpa using hi, by simp, ?_, ?_, ?_⟩
        · simpa using lt_trans hlt hgt
        · intro j hj
          cases j with
          | zero => simpa using hgt
          | succ j2 => simpa using hpre j2 (by omega)
        · intro j hj
          cases j with
          | zero => simpa using le_of_lt hgt
          | succ j2 => simpa using hall j2 (by simpa using hj)
    · obtain ⟨res, hres, hcase⟩ := ih s b
      refine ⟨res, by simp only [bcLoop, if_neg hlt]; exact hres, ?_⟩
      rcases hcase with ⟨rfl, hall⟩ | ⟨i, hi, rfl, hgt, hpre, hall⟩
      · refine Or.inl ⟨rfl, ?_⟩
        intro j hj
        cases j with
        | zero => simpa using not_lt.mp hlt
        | succ j2 => simpa using hall j2 (by simpa using hj)
      · refine Or.inr ⟨i + 1, by simpa using hi, by simp, hgt, ?_, ?_⟩
        · intro j hj
          cases j with
          | zero => simpa using lt_of_le_of_lt (not_lt.mp hlt) hgt
          | succ j2 => simpa using hpre j2 (by omega)
        · intro j hj
          cases j with
          | zero => simpa using le_of_lt (lt_of_le_of_lt (not_lt.mp hlt) hgt)
          | succ j2 => simpa using hall j2 (by simpa using hj)

/-- The best_child selection loop returns the first-encountered child of
maximal score: every child scores no higher, and every earlier child
scores strictly lower. -/
theorem bcLoop_first_argmax {α β : Type} [LinearOrder β] (score : α → β) (d : α)
    (l : List α) (h : l ≠ []) :
    ∃ i, i < l.length ∧ bcLoop score l none = some (l.getD i d) ∧
      (∀ j, j < l.length → score (l.getD j d) ≤ score (l.getD i d)) ∧
      (∀ j, j < i → score (l.getD j d) < score (l.getD i d)) := by
  obtain ⟨x, xs, rfl⟩ := List.exists_cons_of_ne_nil h
  have hstep : bcLoop score (x :: xs) none = bcLoop score xs (some (score x, x)) := rfl
  obtain ⟨res, hres, hcase⟩ := bcLoop_some_spec score d xs (score x) x
  rcases hcase with ⟨rfl, hall⟩ | ⟨i, hi, rfl, hgt, hpre, hall⟩
  · refine ⟨0, by simp, by rw [hstep, hres]; simp, ?_, by omega⟩
    intro j hj
    cases j with
    | zero => simp
    | succ j2 => simpa using hall j2 (by simpa using hj)
  · refine ⟨i + 1, by simpa using hi, by rw [hstep, hres]; simp, ?_, ?_⟩
    · intro j hj
      cases j with
      | zero => simpa using le_of_lt hgt
      | succ j2 => simpa using hall j2 (by simpa using hj)
    · intro j hj
      cases j with
      | zero => simpa using hgt
      | succ j2 => simpa using hpre j2 (by omega)

/-- C1: for a node with children, `best_child` returns the first
encountered child maximising the UCB1 score (every child scores no
higher; every earlier child scores strictly lower, so ties break to the
first encountered); the score of a child with `n = 0` or `N = 0` is the
raw win count `w` with no exploration term, and otherwise
`w/n + c * sqrt(ln N / n)`; and the final move decision of best_action
runs this selection with `c = 0` (pure exploitation), returning that
child's move. -/
theorem c1_best_child_ucb1 (c : ℝ) (N : ℕ) (l : List ChildStat) (d : ChildStat)
    (h : l ≠ []) :
    (∃ i, i < l.length ∧ best_child c N l = PyResult.ok (l.getD i d) ∧
      (∀ j, j < l.length → ucb1Score c N (l.getD j d) ≤ ucb1Score c N (l.getD i d)) ∧
      (∀ j, j < i → ucb1Score c N (l.getD j d) < ucb1Score c N (l.getD i d))) ∧
    (∀ ch : ChildStat, ch.visits = 0 ∨ N = 0 → ucb1Score c N ch = (ch.wins : ℝ)) ∧
    (∀ ch : ChildStat, 0 < ch.visits → 0 < N → ucb1Score c N ch =
      (ch.wins : ℝ) / (ch.visits : ℝ) +
        c * Real.sqrt (Real.log (N : ℝ) / (ch.visits : ℝ))) ∧
    (∀ (est : ℚ) (elapsed : ℕ → ℚ) (iter : ℕ → IterOutcome) (simNo sc : ℕ),
      bestActionLoop est elapsed iter simNo 0 0 = LoopRes.finished sc → sc ≠ 0 →
      ∀ ch, bcLoop (ucb1Score 0 N) l none = some ch →
        best_action est elapsed iter simNo N l = PyExec.ok (some ch.move)) := by
  refine ⟨?_, ?_, ?_, ?_⟩
  · obtain ⟨i, hi, hloop, hall, hpre⟩ := bcLoop_first_argmax (ucb1Score c N) d l h
    exact ⟨i, hi, by unfold best_child; rw [hloop], hall, hpre⟩
  · intro ch hch
    unfold ucb1Score
    rw [if_pos]
    rcases hch with h1 | h1
    · exact Or.inl (le_of_eq h1)
    · exact Or.inr (le_of_eq h1)
  · intro ch h1 h2
    unfold ucb1Score
    rw [if_neg]
    push_neg
    omega
  · intro est elapsed iter simNo sc hloop hsc ch hch
    unfold best_action
    rw [hloop]
    simp only [if_neg hsc, hch]

/-- Concrete run of C1: a root with two children, tried once each, one
win against none; with `c = 0` and a visited parent the loop must pick
the first child (index 0), whose win rate 1/1 beats 0/1. -/
theorem c1_best_child_ucb1_witness :
    (∃ i, i < ([⟨1, 1, 10⟩, ⟨0, 1, 20⟩] : List ChildStat).length ∧
      best_child 0 2 [⟨1, 1, 10⟩, ⟨0, 1, 20⟩] =
        PyResult.ok (([⟨1, 1, 10⟩, ⟨0, 1, 20⟩] : List ChildStat).getD i ⟨0, 0, 0⟩) ∧
      (∀ j, j < ([⟨1, 1, 10⟩, ⟨0, 1, 20⟩] : List ChildStat).length →
        ucb1Score 0 2 (([⟨1, 1, 10⟩, ⟨0, 1, 20⟩] : List ChildStat).getD j ⟨0, 0, 0⟩) ≤
          ucb1Score 0 2 (([⟨1, 1, 10⟩, ⟨0, 1, 20⟩] : List ChildStat).getD i ⟨0, 0, 0⟩)) ∧
      (∀ j, j < i →
        ucb1Score 0 2 (([⟨1, 1, 10⟩, ⟨0, 1, 20⟩] : List ChildStat).getD j ⟨0, 0, 0⟩) <
          ucb1Score 0 2 (([⟨1, 1, 10⟩, ⟨0, 1, 20⟩] : List ChildStat).getD i ⟨0, 0, 0⟩))) ∧
    (∀ ch : ChildStat, ch.visits = 0 ∨ 2 = 0 → ucb1Score 0 2 ch = (ch.wins : ℝ)) ∧
    (∀ ch : ChildStat, 0 < ch.visits → 0 < 2 → ucb1Score 0 2 ch =
      (ch.wins : ℝ) / (ch.visits : ℝ) +
        0 * Real.sqrt (Real.log ((2 : ℕ) : ℝ) / (ch.visits : ℝ))) ∧
    (∀ (est : ℚ) (elapsed : ℕ → ℚ) (iter : ℕ → IterOutcome) (simNo sc : ℕ),
      bestActionLoop est elapsed iter simNo 0 0 = LoopRes.finished sc → sc ≠ 0 →
      ∀ ch, bcLoop (ucb1Score 0 2) [⟨1, 1, 10⟩, ⟨0, 1, 20⟩] none = some ch →
        best_action est elapsed iter simNo 2 [⟨1, 1, 10⟩, ⟨0, 1, 20⟩] =
          PyExec.ok (some ch.move)) :=
  c1_best_child_ucb1 0 2 [⟨1, 1, 10⟩, ⟨0, 1, 20⟩] ⟨0, 0, 0⟩ (by simp)

/-- C7: evaluation of the source at the failing input.  A search whose
root ends up with no children reaches the final exploitation step and
terminates the whole process (`exit()` in best_child, mcts.py line 203)
instead of returning a typed "no move found" result: here one
simulation completes (so the unguarded division at line 248 passes) and
the children mapping is empty, and both the final step of `best_action`
and `best_child` itself end in process exit, never in an `ok` value. -/
theorem c7_exit_on_no_children :
    best_action 1 (fun _ => 0) (fun _ => .simDone) 1 0 [] = PyExec.exited ∧
    best_child 0 5 [] = PyResult.exited := by
  constructor
  · have hloop : bestActionLoop 1 (fun _ => 0) (fun _ => .simDone) 1 0 0 =
        LoopRes.finished 1 := by
      show (if (1 : ℚ) < 0 then _ else _) = _
      rw [if_neg (by norm_num)]
      rfl
    unfold best_action
    rw [hloop]
    rfl
  · rfl

/-- C10: whenever the search loop of best_action exits with zero
completed simulations — in particular when `sim_no` is 0, or when the
first wall-clock reading already exceeds `estimated_time` (whose value
at node construction is 0, so any positive elapsed time suffices) —
`sim_count` is 0 and the unguarded division
`(timer() - start_time) / sim_count` at mcts.py line 248 raises
ZeroDivisionError; best_action neither returns a move nor an error
value. -/
theorem c10_zero_division (est : ℚ) (elapsed : ℕ → ℚ) (iter : ℕ → IterOutcome)
    (simNo : ℕ) (N : ℕ) (children : List ChildStat)
    (h : simNo = 0 ∨ est < elapsed 0) :
    bestActionLoop est elapsed iter simNo 0 0 = LoopRes.finished 0 ∧
    best_action est elapsed iter simNo N children = PyExec.zeroDivisionError ∧
    initEstimatedTime = 0 := by
  have hloop : bestActionLoop est elapsed iter simNo 0 0 = LoopRes.finished 0 := by
    rcases h with rfl | hlt
    · rfl
    · cases simNo with
      | zero => rfl
      | succ k =>
        show (if est < elapsed 0 then _ else _) = _
        rw [if_pos hlt]
  refine ⟨hloop, ?_, rfl⟩
  unfold best_action
  rw [hloop]
  rfl

/-- Concrete run of C10: a freshly constructed root (`estimated_time =
0`) with a clock that has already advanced by any positive amount ends
its very first loop iteration with `sim_count = 0` and raises. -/
theorem c10_zero_division_witness :
    bestActionLoop initEstimatedTime (fun _ => 1) (fun _ => .simDone) 100 0 0 =
      LoopRes.finished 0 ∧
    best_action initEstimatedTime (fun _ => 1) (fun _ => .simDone) 100 3 [⟨1, 1, 10⟩] =
      PyExec.zeroDivisionError ∧
    initEstimatedTime = 0 :=
  c10_zero_division initEstimatedTime (fun _ => 1) (fun _ => .simDone) 100 3 [⟨1, 1, 10⟩]
    (Or.inr (by norm_num [initEstimatedTime]))

theorem chopAllL_getElem (cs : List MTree) :
    ∀ i : ℕ, (chopAllL cs)[i]? = (cs[i]?).map chopAll := by
  induction cs with
  | nil => intro i; simp [chopAllL]
  | cons t ts ih =>
    intro i
    cases i with
    | zero => simp [chopAllL]
    | succ j => simp only [chopAllL, List.getElem?_cons_succ, ih j]

theorem chopAll_isReleased (t : MTree) : (chopAll t).isReleased = true := by
  cases t with
  | node r g cs => rfl

/-- Every node anywhere inside a deep-released subtree is released. -/
theorem chopAll_lookup_released :
    ∀ (addr : List ℕ) (t t2 : MTree),
      lookupA (chopAll t) addr = some t2 → t2.isReleased = true := by
  intro addr
  induction addr with
  | nil =>
    intro t t2 h
    have h2 : chopAll t = t2 := by simpa [lookupA] using h
    rw [← h2]
    exact chopAll_isReleased t
  | cons i rest ih =>
    intro t t2 h
    cases t with
    | node r g cs =>
      have hc : chopAll (MTree.node r g cs) = MTree.node true g (chopAllL cs) := rfl
      rw [hc] at h
      rw [lookupA] at h
      rw [chopAllL_getElem] at h
      cases hcs : cs[i]? with
      | none => rw [hcs] at h; simp at h
      | some c =>
        rw [hcs] at h
        simp only [Option.map_some'] at h
        exact ih c t2 h

theorem chopExceptL_getElem (k : ℕ) :
    ∀ (cs : List MTree) (i0 j : ℕ),
      (chopExceptL k i0 cs)[j]? =
        (cs[j]?).map (fun t => if i0 + j = k then t else chopAll t) := by
  intro cs
  induction cs with
  | nil => intro i0 j; simp [chopExceptL]
  | cons t ts ih =>
    intro i0 j
    cases j with
    | zero => simp [chopExceptL]
    | succ j2 =>
      simp only [chopExceptL, List.getElem?_cons_succ]
      rw [ih (i0 + 1) j2]
      have h3 : ∀ t2 : MTree,
          (if i0 + 1 + j2 = k then t2 else chopAll t2) =
          (if i0 + (j2 + 1) = k then t2 else chopAll t2) := by
        intro t2
        have he : i0 + 1 + j2 = i0 + (j2 + 1) := by omega
        rw [he]
      simp only [h3]

theorem chopExceptL_length (k : ℕ) :
    ∀ (cs : List MTree) (i0 : ℕ), (chopExceptL k i0 cs).length = cs.length := by
  intro cs
  induction cs with
  | nil => intro i0; rfl
  | cons t ts ih => intro i0; simp [chopExceptL, ih]

theorem chop_child_lookup (r : Bool) (g : ℕ) (cs : List MTree) (k j : ℕ) (rest : List ℕ) :
    lookupA (chop_nodes_except (MTree.node r g cs) k) (j :: rest) =
      match (cs[j]?).map (fun t => if j = k then t else chopAll t) with
      | none => none
      | some c => lookupA c rest := by
  show lookupA (MTree.node r g (chopExceptL k 0 cs)) (j :: rest) = _
  rw [lookupA, chopExceptL_getElem]
  simp only [Nat.zero_add]

/-- C8 (amended): pruning with a designated child leaves that child's
subtree intact and unchanged and deep-releases every sibling subtree,
recursively discarding children before releasing a node's own board,
move lists, children map and statistics, so every node inside a sibling
subtree is released and no proper descendant of a sibling remains
reachable from the new root; but the chop neither clears the old root's
children mapping nor the kept child's parent pointer, so the released
shell objects of the sibling roots (and the old root) do remain
reachable from the new root. -/
theorem c8_chop_nodes_except_amended (r : Bool) (g : ℕ) (cs : List MTree) (k : ℕ)
    (d : MTree) (hk : k < cs.length) :
    (lookupA (chop_nodes_except (MTree.node r g cs) k) [k] = some (cs.getD k d)) ∧
    (∀ j, j < cs.length → j ≠ k →
      lookupA (chop_nodes_except (MTree.node r g cs) k) [j] =
        some (chopAll (cs.getD j d))) ∧
    (∀ j (addr : List ℕ) (t2 : MTree), j ≠ k →
      lookupA (chop_nodes_except (MTree.node r g cs) k) (j :: addr) = some t2 →
      t2.isReleased = true) ∧
    (∀ j (addr : List ℕ), j ≠ k → addr ≠ [] →
      ¬ ReachableA (chop_nodes_except (MTree.node r g cs) k) [k] (j :: addr)) ∧
    (r = false → (cs.getD k d).isReleased = false →
      ∀ j, j < cs.length →
        ReachableA (chop_nodes_except (MTree.node r g cs) k) [k] [j]) := by
  have hgetk : cs.getD k d = cs[k] := by
    rw [List.getD_eq_getElem?_getD, List.getElem?_eq_getElem hk, Option.getD_some]
  have hlookk : lookupA (chop_nodes_except (MTree.node r g cs) k) [k] = some (cs.getD k d) := by
    rw [chop_child_lookup, List.getElem?_eq_getElem hk, hgetk]
    simp [lookupA]
  have hlookj : ∀ j, j < cs.length → j ≠ k →
      lookupA (chop_nodes_except (MTree.node r g cs) k) [j] =
        some (chopAll (cs.getD j d)) := by
    intro j hj hjk
    have hgetj : cs.getD j d = cs[j] := by
      rw [List.getD_eq_getElem?_getD, List.getElem?_eq_getElem hj, Option.getD_some]
    rw [chop_child_lookup, List.getElem?_eq_getElem hj, hgetj]
    simp [lookupA, if_neg hjk]
  have hrel : ∀ j (addr : List ℕ) (t2 : MTree), j ≠ k →
      lookupA (chop_nodes_except (MTree.node r g cs) k) (j :: addr) = some t2 →
      t2.isReleased = true := by
    intro j addr t2 hjk h
    rw [chop_child_lookup] at h
    cases hcs : cs[j]? with
    | none => rw [hcs] at h; simp at h
    | some c =>
      rw [hcs] at h
      simp only [Option.map_some', if_neg hjk] at h
      exact chopAll_lookup_released addr c t2 h
  refine ⟨hlookk, hlookj, hrel, ?_, ?_⟩
  · intro j addr hjk haddr hreach
    have hclosed : ∀ x y, EdgeA (chop_nodes_except (MTree.node r g cs) k) x y →
        (x = [] ∨ (∃ j2, j2 < cs.length ∧ x = [j2]) ∨ (∃ rest, x = k :: rest)) →
        (y = [] ∨ (∃ j2, j2 < cs.length ∧ y = [j2]) ∨ (∃ rest, y = k :: rest)) := by
      intro x y he hx
      cases he with
      | down a j2 t hlook hrelt hj2 =>
        rcases hx with rfl | ⟨j3, hj3, rfl⟩ | ⟨rest2, rfl⟩
        · have ht : chop_nodes_except (MTree.node r g cs) k = t := Option.some.inj hlook
          rw [← ht] at hj2
          refine Or.inr (Or.inl ⟨j2, ?_, by simp⟩)
          simpa [chop_nodes_except, MTree.childCount, chopExceptL_length] using hj2
        · by_cases hj3k : j3 = k
          · subst hj3k
            exact Or.inr (Or.inr ⟨[j2], by simp⟩)
          · have hcon := hrel j3 [] t hj3k hlook
            simp [hcon] at hrelt
        · exact Or.inr (Or.inr ⟨rest2 ++ [j2], by simp⟩)
      | up a j2 t hlook hrelt =>
        cases y with
        | nil => exact Or.inl rfl
        | cons x2 xs =>
          rcases hx with hemp | ⟨j3, hj3, heq⟩ | ⟨rest2, heq⟩
          · exact absurd hemp (by simp)
          · exfalso
            have h2 : xs ++ [j2] = [] := by
              have h3 := heq
              simp only [List.cons_append] at h3
              exact (List.cons_eq_cons.mp h3).2
            simp at h2
          · have hx2 : x2 = k := by
              have h3 := heq
              simp only [List.cons_append] at h3
              exact (List.cons_eq_cons.mp h3).1
            subst hx2
            exact Or.inr (Or.inr ⟨xs, rfl⟩)
    have hsafe : ∀ b, ReachableA (chop_nodes_except (MTree.node r g cs) k) [k] b →
        (b = [] ∨ (∃ j2, j2 < cs.length ∧ b = [j2]) ∨ (∃ rest, b = k :: rest)) := by
      intro b hb
      induction hb with
      | refl => exact Or.inr (Or.inr ⟨[], rfl⟩)
      | tail hab he ih => exact hclosed _ _ he ih
    rcases hsafe (j :: addr) hreach with hemp | ⟨j2, _, heq⟩ | ⟨rest2, heq⟩
    · simp at hemp
    · have : addr = [] := (List.cons_eq_cons.mp heq).2
      exact haddr this
    · exact hjk (List.cons_eq_cons.mp heq).1
  · intro hr hkept j hj
    have e1 : EdgeA (chop_nodes_except (MTree.node r g cs) k) ([] ++ [k]) [] :=
      EdgeA.up [] k (cs.getD k d) (by simpa using hlookk) hkept
    have e2 : EdgeA (chop_nodes_except (MTree.node r g cs) k) [] ([] ++ [j]) := by
      refine EdgeA.down [] j (chop_nodes_except (MTree.node r g cs) k) rfl ?_ ?_
      · simpa [chop_nodes_except, MTree.isReleased] using hr
      · simpa [chop_nodes_except, MTree.childCount, chopExceptL_length] using hj
    exact Relation.ReflTransGen.tail (Relation.ReflTransGen.single e1) e2

/-- C8 counterexample: a root with two live children where child 0 is
designated as the new root.  After the chop, the discarded sibling
(child 1) is a released shell, yet it is still reachable from the new
root: the kept child's parent pointer still references the old root,
whose children mapping still references the shell.  The claim's "no node
of a discarded sibling subtree remains reachable from the new root" is
therefore false at this input. -/
theorem c8_chop_reachable_counterexample :
    ReachableA (chop_nodes_except
        (MTree.node false 0 [MTree.node false 1 [], MTree.node false 2 []]) 0) [0] [1] ∧
    lookupA (chop_nodes_except
        (MTree.node false 0 [MTree.node false 1 [], MTree.node false 2 []]) 0) [1] =
      some (MTree.node true 2 []) := by
  have hpost : chop_nodes_except
      (MTree.node false 0 [MTree.node false 1 [], MTree.node false 2 []]) 0 =
      MTree.node false 0 [MTree.node false 1 [], MTree.node true 2 []] := by
    show MTree.node false 0 (chopExceptL 0 0 [MTree.node false 1 [], MTree.node false 2 []]) = _
    norm_num [chopExceptL, chopAll, chopAllL]
  rw [hpost]
  refine ⟨?_, rfl⟩
  have e1 : EdgeA (MTree.node false 0 [MTree.node false 1 [], MTree.node true 2 []])
      ([] ++ [0]) [] :=
    EdgeA.up [] 0 (MTree.node false 1 []) rfl rfl
  have e2 : EdgeA (MTree.node false 0 [MTree.node false 1 [], MTree.node true 2 []])
      [] ([] ++ [1]) :=
    EdgeA.down [] 1 (MTree.node false 0 [MTree.node false 1 [], MTree.node true 2 []])
      rfl rfl (by simp [MTree.childCount])
  exact Relation.ReflTransGen.tail (Relation.ReflTransGen.single e1) e2

/-- Concrete run of C8 (amended): a root with three children and child 1
kept: the kept subtree is returned unchanged, the siblings are fully
released, their insides are unreachable from the new root, and the two
released sibling shells are still reachable. -/
theorem c8_chop_nodes_except_amended_witness :
    (lookupA (chop_nodes_except
        (MTree.node false 0 [MTree.node false 10 [MTree.node false 11 []],
          MTree.node false 20 [], MTree.node false 30 []]) 1) [1] =
      some (([MTree.node false 10 [MTree.node false 11 []],
        MTree.node false 20 [], MTree.node false 30 []] : List MTree).getD 1
          (MTree.node false 0 []))) ∧
    (∀ j, j < ([MTree.node false 10 [MTree.node false 11 []],
        MTree.node false 20 [], MTree.node false 30 []] : List MTree).length → j ≠ 1 →
      lookupA (chop_nodes_except
        (MTree.node false 0 [MTree.node false 10 [MTree.node false 11 []],
          MTree.node false 20 [], MTree.node false 30 []]) 1) [j] =
        some (chopAll (([MTree.node false 10 [MTree.node false 11 []],
          MTree.node false 20 [], MTree.node false 30 []] : List MTree).getD j
            (MTree.node false 0 [])))) ∧
    (∀ j (addr : List ℕ) (t2 : MTree), j ≠ 1 →
      lookupA (chop_nodes_except
        (MTree.node false 0 [MTree.node false 10 [MTree.node false 11 []],
          MTree.node false 20 [], MTree.node false 30 []]) 1) (j :: addr) = some t2 →
      t2.isReleased = true) ∧
    (∀ j (addr : List ℕ), j ≠ 1 → addr ≠ [] →
      ¬ ReachableA (chop_nodes_except
        (MTree.node false 0 [MTree.node false 10 [MTree.node false 11 []],
          MTree.node false 20 [], MTree.node false 30 []]) 1) [1] (j :: addr)) ∧
    (false = false →
      (([MTree.node false 10 [MTree.node false 11 []],
        MTree.node false 20 [], MTree.node false 30 []] : List MTree).getD 1
          (MTree.node false 0 [])).isReleased = false →
      ∀ j, j < ([MTree.node false 10 [MTree.node false 11 []],
          MTree.node false 20 [], MTree.node false 30 []] : List MTree).length →
        ReachableA (chop_nodes_except
          (MTree.node false 0 [MTree.node false 10 [MTree.node false 11 []],
            MTree.node false 20 [], MTree.node false 30 []]) 1) [1] [j]) :=
  c8_chop_nodes_except_amended false 0
    [MTree.node false 10 [MTree.node false 11 []],
      MTree.node false 20 [], MTree.node false 30 []] 1 (MTree.node false 0 [])
    (by simp)

/-- C9: evaluation of the source at the failing input.  On a board
whose only occupied cells are (5,5)..(5,8) and with anchor (5,5),
`get_valid_pieces` returns both translated placements — the origin
cells its filter actually checks are free — although the returned I
piece lies exactly on the four occupied cells, so `is_valid` is false
of the placement actually returned; `valid_moves` passes the same list
through unchanged. -/
theorem c9_get_valid_pieces_unchecked :
    get_valid_pieces
      (fun c => if c = ((5 : Fin 11), (5 : Fin 11)) ∨ c = ((5 : Fin 11), (6 : Fin 11)) ∨
          c = ((5 : Fin 11), (7 : Fin 11)) ∨ c = ((5 : Fin 11), (8 : Fin 11))
        then some PColor.red else none)
      ((5 : Fin 11), (5 : Fin 11)) =
      [⟨[((5 : Fin 11), (5 : Fin 11)), ((5 : Fin 11), (6 : Fin 11)),
         ((5 : Fin 11), (7 : Fin 11)), ((5 : Fin 11), (8 : Fin 11))]⟩,
       ⟨[((5 : Fin 11), (5 : Fin 11)), ((5 : Fin 11), (6 : Fin 11)),
         ((6 : Fin 11), (5 : Fin 11)), ((6 : Fin 11), (6 : Fin 11))]⟩] ∧
    is_valid
      (fun c => if c = ((5 : Fin 11), (5 : Fin 11)) ∨ c = ((5 : Fin 11), (6 : Fin 11)) ∨
          c = ((5 : Fin 11), (7 : Fin 11)) ∨ c = ((5 : Fin 11), (8 : Fin 11))
        then some PColor.red else none)
      ⟨[((5 : Fin 11), (5 : Fin 11)), ((5 : Fin 11), (6 : Fin 11)),
        ((5 : Fin 11), (7 : Fin 11)), ((5 : Fin 11), (8 : Fin 11))]⟩ = false ∧
    valid_moves
      (fun c => if c = ((5 : Fin 11), (5 : Fin 11)) ∨ c = ((5 : Fin 11), (6 : Fin 11)) ∨
          c = ((5 : Fin 11), (7 : Fin 11)) ∨ c = ((5 : Fin 11), (8 : Fin 11))
        then some PColor.red else none)
      ((5 : Fin 11), (5 : Fin 11)) =
      get_valid_pieces
        (fun c => if c = ((5 : Fin 11), (5 : Fin 11)) ∨ c = ((5 : Fin 11), (6 : Fin 11)) ∨
            c = ((5 : Fin 11), (7 : Fin 11)) ∨ c = ((5 : Fin 11), (8 : Fin 11))
          then some PColor.red else none)
        ((5 : Fin 11), (5 : Fin 11)) := by
  refine ⟨by decide, by decide, rfl⟩

end MctsModel
